import Mathlib

/-!
Verification development for the B-Rep surface-meshing core
(`libsrc/meshing/basegeom.cpp`).

Embedding conventions:
* C++ `double` is embedded as `ℚ`.  The claims settled here are about control
  flow, list contents and index bookkeeping, none of which depends on
  floating-point rounding.
* Euclidean distances compare via squared distances: for `tol`, `Dist(p,q) < tol`
  iff `0 < tol ∧ distSq p q < tol²`, and `tol < Dist(p,q)` iff
  `tol < 0 ∨ tol² < distSq p q`; both encodings are exact for every rational
  `tol` because `Dist ≥ 0`.  Comparisons of two distances
  (`Dist a b < Dist c d`) compare the squares, which is likewise exact.
* Virtual callbacks supplied by the CAD kernel (`GetPoint`, `GetTangent`,
  `CalcStep`, `GetLength`, `ProjectPoint`, `IsDegenerated`) and the mesh's
  sizing octree (`GetH`) are collaborator interfaces (spec §6); they appear as
  function-valued fields, instantiated concretely in the witness runs.
  Where a collaborator returns a Euclidean length of a vector (`.Length()`),
  the embedding takes the length function as an explicit argument `norm`;
  witness runs live on the x-axis where the Euclidean length is `|x|`, made
  exact by `axisNorm`.
* Shapes are addressed by their position in the geometry's shape lists; the
  C++ pointer identity `a == b` between shapes of one list is index equality,
  and the `nr` field set by the indexing step of `ProcessIdentifications`
  equals that position.
-/

/-- A point of ℝ³ (`Point<3>` / `Vec<3>` of the core library), with ℚ
coordinates. -/
structure Point3 where
  x : ℚ
  y : ℚ
  z : ℚ
deriving DecidableEq, Repr

instance : Inhabited Point3 := ⟨⟨0, 0, 0⟩⟩

/-- Componentwise difference `p - q` of points/vectors. -/
def Point3.sub (p q : Point3) : Point3 := ⟨p.x - q.x, p.y - q.y, p.z - q.z⟩

instance : Sub Point3 := ⟨Point3.sub⟩

/-- Componentwise sum. -/
def Point3.add (p q : Point3) : Point3 := ⟨p.x + q.x, p.y + q.y, p.z + q.z⟩

instance : Add Point3 := ⟨Point3.add⟩

/-- Squared Euclidean distance `Dist(p,q)²`. -/
def distSq (p q : Point3) : ℚ :=
  (p.x - q.x) * (p.x - q.x) + (p.y - q.y) * (p.y - q.y) + (p.z - q.z) * (p.z - q.z)

/-- `Dist(p, q) < tol`, encoded exactly over ℚ (see header). -/
def distLtB (p q : Point3) (tol : ℚ) : Bool :=
  decide (0 < tol) && decide (distSq p q < tol * tol)

/-- `tol < Dist(p, q)`, encoded exactly over ℚ (see header). -/
def distGtB (p q : Point3) (tol : ℚ) : Bool :=
  decide (tol < 0) || decide (tol * tol < distSq p q)

/-- `Dist(a, b) < Dist(c, d)`, compared on squares – exact since `Dist ≥ 0`. -/
def distPairLtB (a b c d : Point3) : Bool :=
  decide (distSq a b < distSq c d)

/-- Euclidean vector length restricted to the x-axis: for points with
`y = z = 0` this is exactly `‖·‖`.  Used to instantiate the `norm`
collaborator in witness runs whose geometry lies on the x-axis. -/
def axisNorm (p : Point3) : ℚ := |p.x|

/-- A 3×3 matrix given by rows. -/
structure Mat3 where
  r0 : Point3
  r1 : Point3
  r2 : Point3
deriving DecidableEq, Repr

/-- Matrix application to a vector. -/
def Mat3.apply (m : Mat3) (p : Point3) : Point3 :=
  ⟨m.r0.x * p.x + m.r0.y * p.y + m.r0.z * p.z,
   m.r1.x * p.x + m.r1.y * p.y + m.r1.z * p.z,
   m.r2.x * p.x + m.r2.y * p.y + m.r2.z * p.z⟩

/-- Matrix product. -/
def Mat3.mul (a b : Mat3) : Mat3 :=
  ⟨⟨a.r0.x * b.r0.x + a.r0.y * b.r1.x + a.r0.z * b.r2.x,
    a.r0.x * b.r0.y + a.r0.y * b.r1.y + a.r0.z * b.r2.y,
    a.r0.x * b.r0.z + a.r0.y * b.r1.z + a.r0.z * b.r2.z⟩,
   ⟨a.r1.x * b.r0.x + a.r1.y * b.r1.x + a.r1.z * b.r2.x,
    a.r1.x * b.r0.y + a.r1.y * b.r1.y + a.r1.z * b.r2.y,
    a.r1.x * b.r0.z + a.r1.y * b.r1.z + a.r1.z * b.r2.z⟩,
   ⟨a.r2.x * b.r0.x + a.r2.y * b.r1.x + a.r2.z * b.r2.x,
    a.r2.x * b.r0.y + a.r2.y * b.r1.y + a.r2.z * b.r2.y,
    a.r2.x * b.r0.z + a.r2.y * b.r1.z + a.r2.z * b.r2.z⟩⟩

/-- Determinant. -/
def Mat3.det (m : Mat3) : ℚ :=
  m.r0.x * (m.r1.y * m.r2.z - m.r1.z * m.r2.y)
  - m.r0.y * (m.r1.x * m.r2.z - m.r1.z * m.r2.x)
  + m.r0.z * (m.r1.x * m.r2.y - m.r1.y * m.r2.x)

/-- Inverse via the adjugate (entries divided by the determinant; ℚ division
by zero yields zero, matching that the source only inverts rigid motions,
whose determinant is nonzero). -/
def Mat3.inv (m : Mat3) : Mat3 :=
  let d := m.det
  ⟨⟨(m.r1.y * m.r2.z - m.r1.z * m.r2.y) / d,
    (m.r0.z * m.r2.y - m.r0.y * m.r2.z) / d,
    (m.r0.y * m.r1.z - m.r0.z * m.r1.y) / d⟩,
   ⟨(m.r1.z * m.r2.x - m.r1.x * m.r2.z) / d,
    (m.r0.x * m.r2.z - m.r0.z * m.r2.x) / d,
    (m.r0.z * m.r1.x - m.r0.x * m.r1.z) / d⟩,
   ⟨(m.r1.x * m.r2.y - m.r1.y * m.r2.x) / d,
    (m.r0.y * m.r2.x - m.r0.x * m.r2.y) / d,
    (m.r0.x * m.r1.y - m.r0.y * m.r1.x) / d⟩⟩

/-- Identity matrix. -/
def Mat3.id : Mat3 := ⟨⟨1, 0, 0⟩, ⟨0, 1, 0⟩, ⟨0, 0, 1⟩⟩

/-- Modelled from the spec: `Transformation<3>` of the core library, an affine
map `p ↦ m·p + v` (rotation plus translation). -/
structure Trafo where
  m : Mat3
  v : Point3
deriving DecidableEq, Repr

/-- Application `trafo(p)`. -/
def Trafo.apply (t : Trafo) (p : Point3) : Point3 := t.m.apply p + t.v

/-- Modelled from the spec: `Transformation<3>::Combine(a, b)` stores `a ∘ b`
(apply `b` first, then `a`). -/
def Trafo.combine (a b : Trafo) : Trafo :=
  ⟨a.m.mul b.m, a.m.apply b.v + a.v⟩

/-- Modelled from the spec: `Transformation<3>::CalcInverse`, the inverse
affine map `p ↦ m⁻¹·(p - v)`. -/
def Trafo.calcInverse (t : Trafo) : Trafo :=
  let mi := t.m.inv
  ⟨mi, ⟨-(mi.apply t.v).x, -(mi.apply t.v).y, -(mi.apply t.v).z⟩⟩

/-- `Transformation<3>( Vec<3>{0., 0., 0.} )`: translation by zero, i.e. the
identity transformation. -/
def Trafo.idT : Trafo := ⟨Mat3.id, ⟨0, 0, 0⟩⟩

/-- The identification kinds of `Identifications::` used by the source
(spec §3: kind is one of PERIODIC, CLOSESURFACES, other). -/
inductive IdentType
  | undefined
  | periodic
  | closesurfaces
  | closeedges
deriving DecidableEq, Repr

/-- A `ShapeIdentification` record `{from, to, trafo, kind, name}`.  The
`from`/`to` pointers are embedded as positions in the owning shape list
(`from` and `to` are Lean keywords, hence `from_`/`to_`). -/
structure Identification where
  from_ : ℕ
  to_ : ℕ
  trafo : Option Trafo
  type : IdentType
  name : String
deriving DecidableEq

/-- `GeometryVertex`: its point and its identification list.  `nr` is the
position in the vertex list. -/
structure GeometryVertex where
  point : Point3
  identifications : List Identification

instance : Inhabited GeometryVertex := ⟨⟨default, []⟩⟩

/-- `GeometryEdge`.  `startVertex`/`endVertex` are the positions (`nr`) of the
edge's vertices; the function-valued fields are the CAD-kernel callbacks
(collaborators, spec §6):
* `getPoint t`      — `GetPoint(t)`,
* `tangentLen t`    — `GetTangent(t).Length()`,
* `calcStep t e`    — `CalcStep(t, e)`,
* `length`          — `GetLength()`,
* `center`          — `GetCenter()`,
* `isDegenerated t` — `IsDegenerated(t)`, `isDegeneratedDefault` — `IsDegenerated()`,
* `projectParam p`  — the parameter `gi.dist` written by `ProjectPoint(p, &gi)`. -/
structure GeometryEdge where
  startVertex : ℕ
  endVertex : ℕ
  center : Point3
  getPoint : ℚ → Point3
  tangentLen : ℚ → ℚ
  calcStep : ℚ → ℚ → ℚ
  length : ℚ
  isDegenerated : ℚ → Bool
  isDegeneratedDefault : Bool
  projectParam : Point3 → ℚ
  partition : Option (List ℚ)
  layer : ℕ
  hpref : Bool
  identifications : List Identification

instance : Inhabited GeometryEdge :=
  ⟨⟨0, 0, default, fun _ => default, fun _ => 1, fun _ _ => 1, 0,
    fun _ => false, false, fun _ => 0, none, 1, false, []⟩⟩

/-- `GeometryFace`: its center (`GetCenter()`), the positions of its edges,
and its identification list. -/
structure GeometryFace where
  center : Point3
  edges : List ℕ
  identifications : List Identification

instance : Inhabited GeometryFace := ⟨⟨default, [], []⟩⟩

/-- `NetgenGeometry`'s shape containers.  `diam` is the collaborator value
`bounding_box.Diam()` (a Euclidean length, supplied by the core library). -/
structure NetgenGeometry where
  vertices : List GeometryVertex
  edges : List GeometryEdge
  faces : List GeometryFace
  diam : ℚ

/-- Vertex point by position (`vertices[i]->GetPoint()`). -/
def NetgenGeometry.vpoint (g : NetgenGeometry) (i : ℕ) : Point3 :=
  (g.vertices.getD i default).point

/-- `GeometryVertex::IsMappedShape` against another vertex
(basegeom.cpp lines 48–55, after the successful downcast):
`Dist(trafo(GetPoint()), other.GetPoint()) < tol`. -/
def GeometryVertex.isMappedVertex (v : GeometryVertex) (other : GeometryVertex)
    (trafo : Trafo) (tol : ℚ) : Bool :=
  distLtB (trafo.apply v.point) other.point tol

/-- `GeometryEdge::IsMappedShape` against another edge
(basegeom.cpp lines 57–83, after the successful downcast). -/
def GeometryEdge.isMappedEdge (g : NetgenGeometry) (e : GeometryEdge)
    (other : GeometryEdge) (trafo : Trafo) (tol : ℚ) : Bool :=
  if e.isDegenerated tol || other.isDegenerated tol then false
  else if distGtB (trafo.apply e.center) other.center tol then false
  else
    let v0 := trafo.apply (g.vpoint e.startVertex)
    let v1 := trafo.apply (g.vpoint e.endVertex)
    let w0 := g.vpoint other.startVertex
    let w1 := g.vpoint other.endVertex
    -- have two closed edges, use midpoints to compare
    let closed := distLtB v0 v1 tol && distLtB w0 w1 tol
    let v1 := if closed then trafo.apply (e.getPoint (1/2)) else v1
    let w1 := if closed then other.getPoint (1/2) else w1
    (distLtB v0 w0 tol && distLtB v1 w1 tol) ||
      (distLtB v0 w1 tol && distLtB v1 w0 tol)

/-- Edge by position. -/
def NetgenGeometry.edge (g : NetgenGeometry) (i : ℕ) : GeometryEdge :=
  g.edges.getD i default

/-- `GeometryFace::IsMappedShape` against another face
(basegeom.cpp lines 85–115, after the successful downcast): centers within
`tol` (no transformation is applied to the centers in the source), equal edge
counts, and every own edge matching exactly one edge of the other face. -/
def GeometryFace.isMappedFace (g : NetgenGeometry) (f : GeometryFace)
    (other : GeometryFace) (trafo : Trafo) (tol : ℚ) : Bool :=
  if distGtB f.center other.center tol then false
  else if f.edges.length != other.edges.length then false
  else
    f.edges.all fun e =>
      (other.edges.countP fun eo =>
        (g.edge e).isMappedEdge g (g.edge eo) trafo tol) == 1

/-- A shape handed to the virtual `IsMappedShape`: one of the concrete
subclasses, or a shape (such as a solid) that does not override the base
`GeometryShape::IsMappedShape`. -/
inductive GShape
  | vert (v : GeometryVertex)
  | edge (e : GeometryEdge)
  | face (f : GeometryFace)
  | solid

/-- The dynamic kind of a shape. -/
inductive ShapeKind
  | vertK
  | edgeK
  | faceK
  | solidK
deriving DecidableEq, Repr

/-- Kind discriminator (what `dynamic_cast` tests). -/
def GShape.kind : GShape → ShapeKind
  | .vert _ => .vertK
  | .edge _ => .edgeK
  | .face _ => .faceK
  | .solid => .solidK

/-- The virtual dispatch of `IsMappedShape` (basegeom.cpp lines 43–115):
the base class throws, each override first `dynamic_cast`s its argument and
returns `false` on a cross-kind argument. -/
def isMappedShape (g : NetgenGeometry) (s o : GShape) (trafo : Trafo)
    (tol : ℚ) : Except String Bool :=
  match s with
  | .solid => .error "GeometryShape::IsMappedShape not implemented"
  | .vert v =>
      .ok (match o with
           | .vert w => v.isMappedVertex w trafo tol
           | _ => false)
  | .edge e =>
      .ok (match o with
           | .edge e2 => e.isMappedEdge g e2 trafo tol
           | _ => false)
  | .face f =>
      .ok (match o with
           | .face f2 => f.isMappedFace g f2 trafo tol
           | _ => false)

/-!
## Identification closure (`NetgenGeometry::ProcessIdentifications`,
basegeom.cpp lines 248–346)

The identification lists of one shape list are kept as a map
`ℕ → List Identification` from shape position to the shape's
`identifications`; positions ≥ the list length carry `[]`.
-/

/-- The per-record body of the `mirror_identifications` lambda
(lines 259–269): while processing shape `s`, a record with
`s == ident.from && s != ident.to` is appended to `ident.to`'s list. -/
def mirrorRecord (s : ℕ) (st : ℕ → List Identification) (r : Identification) :
    ℕ → List Identification :=
  if r.from_ = s ∧ r.to_ ≠ s then
    fun k => if k = r.to_ then st r.to_ ++ [r] else st k
  else st

/-- Processing of one shape `s` by `mirror_identifications`: fold its own
(unchanging) list, appending to other shapes' lists. -/
def mirrorStep (st : ℕ → List Identification) (s : ℕ) :
    ℕ → List Identification :=
  (st s).foldl (mirrorRecord s) st

/-- `mirror_identifications(shapes)` over a list of `n` shapes
(lines 259–269, invoked at lines 302–304): shapes are processed in index
order; lists appended to by earlier shapes are seen by later shapes. -/
def mirrorIdentifications (n : ℕ) (st : ℕ → List Identification) :
    ℕ → List Identification :=
  (List.range n).foldl mirrorStep st

/-- State of the `find_primary` relaxation: `primary` pointers and
`primary_to_me` transformations, indexed by shape position (after the
indexing step, `primary->nr` is exactly the position the pointer
refers to). -/
structure FPState where
  prim : ℕ → ℕ
  ptm : ℕ → Option Trafo

/-- One identification record processed for shape `s` inside the
`find_primary` sweep (lines 318–338).  The `changed` flag is set only in
the `if(ident.trafo)` branch, exactly as in the source. -/
def fpIdentStep (s : ℕ) (acc : FPState × Bool) (r : Identification) :
    FPState × Bool :=
  let st := acc.1
  let changed := acc.2
  let need_inverse := r.from_ = s
  let other := if need_inverse then r.to_ else r.from_
  if st.prim other < st.prim s then
    let prim' := fun k => if k = s then st.prim other else st.prim k
    match r.trafo with
    | none => (⟨prim', st.ptm⟩, changed)
    | some t =>
        let trafo := if need_inverse then t.calcInverse else t
        let otherPtm := (st.ptm other).getD Trafo.idT
        let ptm' := fun k =>
          if k = s then some (trafo.combine otherPtm)
          else if k = other then some otherPtm
          else st.ptm k
        (⟨prim', ptm'⟩, true)
  else acc

/-- One full sweep of the `while(changed)` loop over all shapes in index
order (lines 314–340), starting with `changed = false`. -/
def fpSweep (n : ℕ) (identsOf : ℕ → List Identification) (st : FPState) :
    FPState × Bool :=
  (List.range n).foldl (fun acc s => (identsOf s).foldl (fpIdentStep s) acc)
    (st, false)

/-- The `while(changed)` loop.  `fuel` bounds the number of sweeps; the C++
loop terminates because every sweep that sets `changed` strictly decreases
the sum of all `primary->nr`, which starts below `n²`. -/
def fpLoop (n : ℕ) (identsOf : ℕ → List Identification) :
    ℕ → FPState → FPState
  | 0, st => st
  | fuel + 1, st =>
      let sw := fpSweep n identsOf st
      if sw.2 then fpLoop n identsOf fuel sw.1 else sw.1

/-- `find_primary(shapes)` (lines 307–341): reset every `primary` to self,
then relax to the fixpoint.  `primary_to_me` values are *not* reset
(`ptm0` is whatever the shapes carried). -/
def findPrimary (n : ℕ) (identsOf : ℕ → List Identification)
    (ptm0 : ℕ → Option Trafo) : FPState :=
  fpLoop n identsOf (n * n + 1) ⟨fun k => k, ptm0⟩

/-- The face→edge lift (lines 271–277): for every face identification with a
transformation, every pair of mapped edges of the two faces gets an edge
identification appended (to the `from` edge's list). -/
def liftFaceIdentifications (g : NetgenGeometry) (tol : ℚ)
    (eIdents : ℕ → List Identification) : ℕ → List Identification :=
  g.faces.foldl
    (fun st f =>
      f.identifications.foldl
        (fun st ident =>
          (g.faces.getD ident.from_ default).edges.foldl
            (fun st e =>
              (g.faces.getD ident.to_ default).edges.foldl
                (fun st eo =>
                  match ident.trafo with
                  | none => st
                  | some t =>
                      if (g.edge e).isMappedEdge g (g.edge eo) t tol then
                        fun k =>
                          if k = e then st e ++
                            [⟨e, eo, ident.trafo, ident.type, ident.name⟩]
                          else st k
                      else st)
                st)
            st)
        st)
    eIdents

/-- The edge→vertex lift (lines 279–300): endpoint pairs of each edge
identification (with the `to` endpoints swapped when the crossed pairing is
closer) become vertex identifications appended to the `from` endpoints'
lists.  Records without a transformation are skipped (`if(!ident.trafo)
continue`). -/
def liftEdgeIdentifications (g : NetgenGeometry)
    (eIdents : ℕ → List Identification)
    (vIdents : ℕ → List Identification) : ℕ → List Identification :=
  (List.range g.edges.length).foldl
    (fun st e =>
      (eIdents e).foldl
        (fun st ident =>
          let fromE := g.edge ident.from_
          let toE := g.edge ident.to_
          match ident.trafo with
          | none => st
          | some t =>
              let pfrom0 := fromE.startVertex
              let pfrom1 := fromE.endVertex
              let p_from0 := t.apply (g.vpoint fromE.startVertex)
              let p_from1 := t.apply (g.vpoint fromE.endVertex)
              let p_to0 := g.vpoint toE.startVertex
              -- swap points of other edge if necessary
              let swapped := distPairLtB p_from1 p_to0 p_from0 p_to0
              let pto0 := if swapped then toE.endVertex else toE.startVertex
              let pto1 := if swapped then toE.startVertex else toE.endVertex
              let r0 : Identification :=
                ⟨pfrom0, pto0, ident.trafo, ident.type, ident.name⟩
              let r1 : Identification :=
                ⟨pfrom1, pto1, ident.trafo, ident.type, ident.name⟩
              let st := fun k => if k = pfrom0 then st pfrom0 ++ [r0] else st k
              fun k => if k = pfrom1 then st pfrom1 ++ [r1] else st k)
        st)
    st0
where
  st0 := vIdents

/-- Result of `ProcessIdentifications`: the final identification lists and
the `primary` / `primary_to_me` state of each of the three shape lists. -/
structure ProcState where
  vIdents : ℕ → List Identification
  eIdents : ℕ → List Identification
  fIdents : ℕ → List Identification
  vPrim : FPState
  ePrim : FPState
  fPrim : FPState

/-- `NetgenGeometry::ProcessIdentifications` (lines 248–346): index shapes
(implicit here: `nr` = position), lift face identifications to edges and
edge identifications to vertices, mirror all three lists, then select
primaries per list.  `primary_to_me` starts absent on every shape. -/
def NetgenGeometry.processIdentifications (g : NetgenGeometry) : ProcState :=
  let tol := (1 / 100000000) * g.diam
  let vI0 := fun k => (g.vertices.getD k default).identifications
  let eI0 := fun k => (g.edges.getD k default).identifications
  let fI0 := fun k => (g.faces.getD k default).identifications
  let eI1 := liftFaceIdentifications g tol eI0
  let vI1 := liftEdgeIdentifications g eI1 vI0
  let vI2 := mirrorIdentifications g.vertices.length vI1
  let eI2 := mirrorIdentifications g.edges.length eI1
  let fI2 := mirrorIdentifications g.faces.length fI0
  let noPtm : ℕ → Option Trafo := fun _ => none
  { vIdents := vI2
    eIdents := eI2
    fIdents := fI2
    vPrim := findPrimary g.vertices.length vI2 noPtm
    ePrim := findPrimary g.edges.length eI2 noPtm
    fPrim := findPrimary g.faces.length fI2 noPtm }

/-!
## The edge divider (`GeometryEdge::Divide`, basegeom.cpp lines 486–576)
and the `MeshingParameters` it consumes.
-/

/-- A user mesh-size pin point (element of `mparam.meshsize_points`).  The
`layer` defaults to 1 as in the collaborator's `MeshSizePoint`. -/
structure MeshSizePoint where
  pnt : Point3
  h : ℚ
  layer : ℕ
deriving DecidableEq

/-- The `MeshingParameters` fields consumed by this translation unit
(spec §6). -/
structure MeshingParameters where
  maxh : ℚ
  minh : ℚ
  grading : ℚ
  segmentsperedge : ℚ
  curvaturesafety : ℚ
  closeedgefac : Option ℚ
  uselocalh : Bool
  meshsize_points : List MeshSizePoint
  perfstepsstart : ℕ
  perfstepsend : ℕ
deriving DecidableEq

/-- State of the marching loop of `Divide` (lines 510–525).  `hvalue` and
`fine_params` are kept newest-first (the loop only appends at the end and
reads the last entry; the in-order lists are recovered by `reverse`), and
`hsize` tracks `hvalue.Size()` as the C++ `Array` stores it. -/
structure MarchState where
  lam : ℚ
  old_p : Point3
  hsize : ℕ
  hvalueRev : List ℚ
  fineRev : List ℚ

/-- The marching loop `while (lam<1. && hvalue.Size() < 20000)`
(lines 516–525).  `norm` is the Euclidean-length collaborator
(`(p-old_p).Length()`); `fuel ≥ 19999` makes the recursion total without
ever being the binding constraint, since `hsize` grows by 1 per iteration
from 1 up to the cap of 20000. -/
def marchLoop (norm : Point3 → ℚ) (e : GeometryEdge) (getH : Point3 → ℕ → ℚ)
    (safety : ℚ) : ℕ → MarchState → MarchState
  | 0, st => st
  | fuel + 1, st =>
      if st.lam < 1 ∧ st.hsize < 20000 then
        let fineRev := st.lam :: st.fineRev
        let h := getH st.old_p e.layer
        let step := safety * h / e.tangentLen st.lam
        let lam := min (st.lam + step) 1
        let p := e.getPoint lam
        let hvalueRev :=
          (st.hvalueRev.headD 0 + 1 / h * norm (p - st.old_p)) :: st.hvalueRev
        marchLoop norm e getH safety fuel ⟨lam, p, st.hsize + 1, hvalueRev, fineRev⟩
      else st

/-- The inner `while(hvalue[i1]<h_target && i1<hvalue.Size()) i1++` of the
interpolation loop (line 543).  The C++ reads `hvalue[i1]` before testing
the bound; an out-of-range read is modelled as the default 0.  Fuel
`hvalue.length + 1` exceeds the possible number of increments. -/
def divAdvance (hvalue : List ℚ) (htarget : ℚ) : ℕ → ℕ → ℕ
  | 0, i1 => i1
  | fuel + 1, i1 =>
      if hvalue.getD i1 0 < htarget ∧ i1 < hvalue.length then
        divAdvance hvalue htarget fuel (i1 + 1)
      else i1

/-- State of the interpolation loop (lines 539–564).  `params`/`points` model
the C++ `Array`s: allocated with `SetSize` (fresh entries read as 0),
written by index (`List.set`, a no-op out of range, as the only such writes
in a run reach dead code after the `break`), shrunk with `take`. -/
structure InterpState where
  i1 : ℕ
  params : List ℚ
  points : List Point3
  broke : Bool

/-- One iteration of the interpolation loop (lines 540–564), for index `i`:
skipped entirely once the `break` has fired. -/
def interpStep (e : GeometryEdge) (hvalue fine_params : List ℚ) (last : ℚ)
    (nsubedges : ℕ) (st : InterpState) (i : ℕ) : InterpState :=
  if st.broke then st
  else
    let h_target := (i : ℚ) * last / (nsubedges : ℚ)
    let i1 := divAdvance hvalue h_target (hvalue.length + 1) st.i1
    if i1 = hvalue.length then
      { st with
        points := st.points.take (i - 1)
        params := st.params.take (i + 1)
        broke := true }
    else
      -- interpolate lam between points
      let lam0 := fine_params.getD (i1 - 1) 0
      let lam1 := fine_params.getD i1 0
      let h0 := hvalue.getD (i1 - 1) 0
      let h1 := hvalue.getD i1 0
      let fac := (h_target - h0) / (h1 - h0)
      let lam := lam0 + fac * (lam1 - lam0)
      { st with
        i1
        params := st.params.set i lam
        points := st.points.set (i - 1) (e.getPoint lam) }

/-- The interpolation loop `for(auto i : Range(1,nsubedges))`
(lines 539–564), including the run-off `break` that shrinks both outputs. -/
def interpLoop (e : GeometryEdge) (hvalue fine_params : List ℚ) (last : ℚ)
    (nsubedges : ℕ) : InterpState :=
  (List.range' 1 (nsubedges - 1)).foldl (interpStep e hvalue fine_params last nsubedges)
    ⟨0, List.replicate (nsubedges + 1) 0, List.replicate (nsubedges - 1) default,
      false⟩

/-- Outputs and observable events of `Divide`.  `warnedCap` is the
`"Warning: Could not divide Edge"` print (line 529–530), `runoff` the
`"divide edge: local h too small"` truncation (lines 546–551), `corrected`
the `"CORRECTED"` truncation (lines 569–575).  `nsubedges` records the
value computed at line 535 (0 in the partition branch, which computes
none). -/
structure DivideResult where
  points : List Point3
  params : List ℚ
  warnedCap : Bool
  runoff : Bool
  corrected : Bool
  nsubedges : ℕ
deriving DecidableEq

/-- The remainder of `Divide` after the marching loop (lines 527–575):
the warning check, `nsubedges`, the interpolation loop, the boundary
parameters, and the final `CORRECTED` shrink when the last two parameters
degenerate. -/
def divideTail (e : GeometryEdge) (st : MarchState) : DivideResult :=
  let hvalue := st.hvalueRev.reverse
  let fine_params := st.fineRev.reverse ++ [1]
  let warnedCap := st.hsize == 20000 && decide (st.lam < 1)
  let last := st.hvalueRev.headD 0
  let nsubedges := max 1 (Int.toNat ⌊last + 1 / 2⌋)
  let ist := interpLoop e hvalue fine_params last nsubedges
  let params := (ist.params.set 0 0).set nsubedges 1
  if params.getD nsubedges 0 ≤ params.getD (nsubedges - 1) 0 then
    { points := ist.points.take (nsubedges - 2)
      params := (params.take nsubedges).set (nsubedges - 1) 1
      warnedCap := warnedCap
      runoff := ist.broke
      corrected := true
      nsubedges := nsubedges }
  else
    { points := ist.points
      params := params
      warnedCap := warnedCap
      runoff := ist.broke
      corrected := false
      nsubedges := nsubedges }

/-- `GeometryEdge::Divide` (lines 486–576). -/
def GeometryEdge.divide (norm : Point3 → ℚ) (e : GeometryEdge)
    (mp : MeshingParameters) (getH : Point3 → ℕ → ℚ) : DivideResult :=
  match e.partition with
  | some part =>
      -- the partition override branch (lines 492–504)
      { points := part.map e.getPoint
        params := [0] ++ part ++ [1]
        warnedCap := false
        runoff := false
        corrected := false
        nsubedges := 0 }
  | none =>
      let safety := (1 / 2) * (1 - mp.grading)
      let p0 := e.getPoint 0
      divideTail e (marchLoop norm e getH safety 20000 ⟨0, p0, 1, [0], []⟩)

/-!
## Analyse: the edge sizing pass (basegeom.cpp lines 348–395)

The pass is modelled as the list of `RestrictLocalH(point, h)` events it
issues, in order; the sizing octree keeps minima, so the events determine
its effect (spec §5: sizing restrictions compose by minimum).
-/

/-- The edge-length restriction loop (lines 376–379): `npts = 20`, restricting
at the 21 uniform parameters `i/npts` to `length/segmentsperedge`. -/
def edgeLenRestrictions (e : GeometryEdge) (mp : MeshingParameters) :
    List (Point3 × ℚ) :=
  (List.range (20 + 1)).foldl
    (fun acc (i : ℕ) =>
      acc ++ [(e.getPoint ((i : ℚ) / 20), e.length / mp.segmentsperedge)]) []

/-- The curvature-adaptive walk (lines 381–394): step by
`CalcStep(t, 1/curvaturesafety)`, restricting at each accepted point to the
chord length from the previous point.  `norm` is the Euclidean-length
collaborator; `fuel` makes the `while` total (its iteration count depends on
the collaborator `CalcStep`). -/
def curvatureWalkLoop (norm : Point3 → ℚ) (e : GeometryEdge) (csafety eps : ℚ) :
    ℕ → ℚ → Point3 → List (Point3 × ℚ) → List (Point3 × ℚ)
  | 0, _, _, acc => acc
  | fuel + 1, t, p_old, acc =>
      if t < 1 - eps then
        let t' := t + e.calcStep t (1 / csafety)
        if t' < 1 then
          let p := e.getPoint t'
          curvatureWalkLoop norm e csafety eps fuel t' p
            (acc ++ [(p, norm (p - p_old))])
        else curvatureWalkLoop norm e csafety eps fuel t' p_old acc
      else acc

/-- The curvature walk of one edge, from `t = 0`,
with `eps = 1e-10 * bounding_box.Diam()` (line 363). -/
def curvatureWalk (norm : Point3 → ℚ) (e : GeometryEdge)
    (mp : MeshingParameters) (diam : ℚ) (fuel : ℕ) : List (Point3 × ℚ) :=
  curvatureWalkLoop norm e mp.curvaturesafety ((1 / 10000000000) * diam) fuel 0
    (e.getPoint 0) []

/-- The restriction events of one edge in the sizing pass (lines 368–395):
edges shorter than `mincurvelength = 1e-3 * bounding_box.Diam()` are skipped
(`continue`, line 374–375); the others get the 21 length-based restrictions
followed by the curvature walk. -/
def analyseEdgeEvents (norm : Point3 → ℚ) (e : GeometryEdge)
    (mp : MeshingParameters) (diam : ℚ) (fuel : ℕ) : List (Point3 × ℚ) :=
  let mincurvelength := (1 / 1000) * diam
  if e.length < mincurvelength then []
  else edgeLenRestrictions e mp ++ curvatureWalk norm e mp diam fuel

/-- The whole `"Analyse Edges"` loop over the geometry's edges, in index
order. -/
def analyseEdgePass (norm : Point3 → ℚ) (g : NetgenGeometry)
    (mp : MeshingParameters) (fuel : ℕ) : List (Point3 × ℚ) :=
  g.edges.foldl (fun acc e => acc ++ analyseEdgeEvents norm e mp g.diam fuel) []

/-!
## FindEdges: the primary-edge branch (basegeom.cpp lines 635–661 and
716–731)
-/

/-- The `is_identified_edge` check (lines 637–649): some identification on
the start vertex's list links it to the end vertex with kind
CLOSESURFACES.  (`other` is `ident.to` when `ident.from` is the start
vertex, else `ident.from`; pointer comparisons are index comparisons.) -/
def isIdentifiedEdge (g : NetgenGeometry) (e : GeometryEdge) : Bool :=
  let v0 := e.startVertex
  let v1 := e.endVertex
  ((g.vertices.getD v0 default).identifications).any fun ident =>
    let other := if ident.from_ = v0 then ident.to_ else ident.from_
    other = v1 && ident.type = IdentType.closesurfaces

/-- The body of the `edge->primary == edge` branch of the `FindEdges` edge
loop (lines 635–661): an identified closed edge gets the trivial partition
`params = [0,1]` with no interior points; otherwise `Divide` runs.  Returns
`(params, edge_points)`. -/
def findEdgesPrimaryBranch (norm : Point3 → ℚ) (g : NetgenGeometry)
    (e : GeometryEdge) (mp : MeshingParameters) (getH : Point3 → ℕ → ℚ) :
    List ℚ × List Point3 :=
  if isIdentifiedEdge g e then ([0, 1], [])
  else
    let d := e.divide norm mp getH
    (d.params, d.points)

/-- Number of mesh segments emitted for the edge (lines 716, 731–748):
`pnums` has `edge_points.Size() + 2` entries and one segment is added per
consecutive pair. -/
def edgeSegmentCount (pr : List ℚ × List Point3) : ℕ :=
  pr.2.length + 1

/-!
## MapSurfaceMesh: element copying and orientation
(basegeom.cpp lines 1052–1212, orientation logic lines 1123–1161)
-/

/-- netgen's three-valued `xbool`. -/
inductive XBool
  | xtrue
  | xfalse
  | xmaybe
deriving DecidableEq

/-- A copied surface element: its corner point numbers and a winding marker.
`Element2d::Invert` (a collaborator of the mesh library) reverses the
winding; the marker records the parity of inversions applied to the
clone. -/
structure Element2d where
  pnums : List ℕ
  inverted : Bool
deriving DecidableEq

/-- `sel_new.Invert()`: reverse the winding. -/
def Element2d.invert (el : Element2d) : Element2d :=
  ⟨el.pnums, !el.inverted⟩

/-- The orientation logic of `MapSurfaceMesh` over the cloned elements
(lines 1123–1124 and 1151–1160): `do_invert` starts `maybe`, is forced to
`true` when the destination face has no `primary_to_me` transformation, is
resolved on the first still-`maybe` element from the normal comparison
`(normal_matrix * n_src) * n_dist < 0.0` (the collaborator oracle
`normalsOpposed`, indexed by the clone's position; it uses
`trafo->GetMatrix()` and is only consulted while `maybe`, which requires
the transformation to exist), and every clone is inverted while `do_invert`
is `true`. -/
def mapInvertStep (normalsOpposed : ℕ → Bool)
    (acc : XBool × List Element2d) (el : Element2d) : XBool × List Element2d :=
  let di := acc.1
  let out := acc.2
  let di := if di = .xmaybe then
      (if normalsOpposed out.length then .xtrue else .xfalse)
    else di
  let el' := if di = .xtrue then el.invert else el
  (di, out ++ [el'])

/-- See `mapInvertStep`: the whole per-element pass, starting from
`do_invert = maybe`, forced to `true` at line 1124 when `trafo` is absent. -/
def mapSurfaceMeshInvert (trafo : Option Trafo) (normalsOpposed : ℕ → Bool)
    (els : List Element2d) : List Element2d :=
  let init : XBool := if trafo.isNone then .xtrue else .xmaybe
  (els.foldl (mapInvertStep normalsOpposed) (init, [])).2

/-!
## MeshSurface: the multithread task label
(basegeom.cpp lines 843–1050; OptimizeSurface lines 1214–1252)

The face dispatch is abstracted to its per-face outcome: a non-primary face
(deferred to the mapping pass), a primary face that connects close surfaces
(quad ribbon), or a primary face handed to `MeshFace`, whose collaborator
result is recorded (`true` = the 2D mesher failed, line 973–974).  The label
is saved at line 847, set to `"Mesh Surface"` at line 848, and restored at
line 1049 — except on the early `return` at lines 978–983 taken when
`n_failed_faces` is nonzero.  `OptimizeSurface` saves and restores its own
label (lines 1216–1217, 1251), so it leaves `"Mesh Surface"` in place.
-/

/-- Per-face outcome of the dispatch loop of `MeshSurface`. -/
inductive FaceOutcome
  | nonPrimary
  | connecting
  | meshed (failed : Bool)
deriving DecidableEq

/-- `n_failed_faces` (lines 851, 973–974). -/
def countFailedFaces (outcomes : List FaceOutcome) : ℕ :=
  (outcomes.filter fun o =>
    match o with
    | .meshed true => true
    | _ => false).length

/-- The values taken by `multithread.task` during `OptimizeSurface`
(lines 1216–1217 and 1251): set to `"Optimizing surface"`, restored to the
caller's label on exit. -/
def optimizeSurfaceTaskEvents (savetask : String) : List String :=
  ["Optimizing surface", savetask]

/-- The successive values of `multithread.task` during `MeshSurface`,
given the per-face outcomes and the caller's label `savetask`:
set to `"Mesh Surface"` (line 848); on failed faces the early return leaves
it there (lines 978–983); otherwise `OptimizeSurface` runs when
`perfstepsend ≥ MESHCONST_OPTSURFACE` (line 985) and the label is finally
restored (line 1049). -/
def meshSurfaceTaskEvents (outcomes : List FaceOutcome)
    (mparam : MeshingParameters) (savetask : String) : List String :=
  let events := ["Mesh Surface"]
  if countFailedFaces outcomes ≠ 0 then events
  else
    let events := events ++
      (if 4 ≤ mparam.perfstepsend then optimizeSurfaceTaskEvents "Mesh Surface"
       else [])
    events ++ [savetask]

/-- The value of `multithread.task` after `MeshSurface` returns (the last
event; the list is never empty). -/
def meshSurfaceFinalTask (outcomes : List FaceOutcome)
    (mparam : MeshingParameters) (savetask : String) : String :=
  (meshSurfaceTaskEvents outcomes mparam savetask).getLastD "Mesh Surface"

/-!
## The pipeline driver (`NetgenGeometry::GenerateMesh`,
basegeom.cpp lines 1295–1369)
-/

/-- Modelled from the spec (§4.G): the `MESHCONST_*` step gates, in
pipeline order. -/
def MESHCONST_ANALYSE : ℕ := 1

/-- See `MESHCONST_ANALYSE`. -/
def MESHCONST_MESHEDGES : ℕ := 2

/-- See `MESHCONST_ANALYSE`. -/
def MESHCONST_MESHSURFACE : ℕ := 3

/-- See `MESHCONST_ANALYSE`. -/
def MESHCONST_OPTSURFACE : ℕ := 4

/-- See `MESHCONST_ANALYSE`. -/
def MESHCONST_MESHVOLUME : ℕ := 5

/-- See `MESHCONST_ANALYSE`. -/
def MESHCONST_OPTVOLUME : ℕ := 6

/-- The result of `GenerateMesh`: its return code, the caller's
`MeshingParameters` after the call (`mp` is passed by non-const reference,
so the embedding threads it through), and the pipeline stages invoked with
the parameter record each received. -/
structure GenerateMeshResult where
  code : ℤ
  mpAfter : MeshingParameters
  stages : List (String × MeshingParameters)
deriving DecidableEq

/-- The local copy `mparam` made at lines 1300–1303: `mp` plus the
geometry's `restricted_h` entries appended to `meshsize_points` (the
collaborator `MeshSizePoint` constructed from `{pnt, maxh}` carries the
default layer 1). -/
def adjustedMp (mp : MeshingParameters) (restricted_h : List (Point3 × ℚ)) :
    MeshingParameters :=
  { mp with
    meshsize_points :=
      mp.meshsize_points ++ restricted_h.map fun ph => ⟨ph.1, ph.2, 1⟩ }

/-- `NetgenGeometry::GenerateMesh` (lines 1295–1369).  `terminate` is the
cooperative-cancellation flag, `dimension` the geometry's dimension,
`volumeFail` the collaborator result of `MeshVolume`
(`res != MESHING3_OK`). -/
def NetgenGeometry.generateMesh (g : NetgenGeometry)
    (restricted_h : List (Point3 × ℚ)) (terminate : Bool) (dimension : ℕ)
    (volumeFail : Bool) (mp : MeshingParameters) : GenerateMeshResult :=
  -- copy so that we don't change them outside
  let mparam := adjustedMp mp restricted_h
  let stages1 := if mparam.perfstepsstart ≤ MESHCONST_ANALYSE then
      [("Analyse", mparam)] else []
  if terminate = true ∨ mparam.perfstepsend ≤ MESHCONST_ANALYSE then
    ⟨0, mp, stages1⟩
  else
  let stages2 := stages1 ++
    (if mparam.perfstepsstart ≤ MESHCONST_MESHEDGES then
      [("FindEdges", mparam)] else [])
  if terminate = true ∨ mparam.perfstepsend ≤ MESHCONST_MESHEDGES then
    ⟨0, mp, stages2⟩
  else
  if dimension = 1 then ⟨0, mp, stages2 ++ [("FinalizeMesh", mparam)]⟩
  else
  let stages3 := stages2 ++
    (if mparam.perfstepsstart ≤ MESHCONST_MESHSURFACE then
      [("MeshSurface", mparam)] else [])
  if terminate = true ∨ mparam.perfstepsend ≤ MESHCONST_OPTSURFACE then
    ⟨0, mp, stages3⟩
  else
  if dimension = 2 then ⟨0, mp, stages3 ++ [("FinalizeMesh", mparam)]⟩
  else
  let stages4 := stages3 ++
    (if mparam.perfstepsstart ≤ MESHCONST_MESHVOLUME then
      [("MeshVolume", mparam)] else [])
  if mparam.perfstepsstart ≤ MESHCONST_MESHVOLUME ∧ volumeFail = true then
    ⟨1, mp, stages4⟩
  else
  if mparam.perfstepsstart ≤ MESHCONST_MESHVOLUME ∧ terminate = true then
    ⟨0, mp, stages4⟩
  else
  let stages5 := stages4 ++
    (if mparam.perfstepsstart ≤ MESHCONST_MESHVOLUME then
      [("MeshQuality3d", mparam)] else [])
  if terminate = true ∨ mparam.perfstepsend ≤ MESHCONST_MESHVOLUME then
    ⟨0, mp, stages5⟩
  else
  let stages6 := stages5 ++
    (if mparam.perfstepsstart ≤ MESHCONST_OPTVOLUME then
      [("OptimizeVolume", mparam)] else [])
  if mparam.perfstepsstart ≤ MESHCONST_OPTVOLUME ∧ terminate = true then
    ⟨0, mp, stages6⟩
  else
  ⟨0, mp, stages6 ++ [("FinalizeMesh", mparam)]⟩

/-!
## Theorems
-/

/-- Fold lemma for the element-copy pass: once `do_invert` is `true`, it
stays `true` and every element is inverted. -/
theorem mapInvertStep_fold_true (orc : ℕ → Bool) :
    ∀ (els : List Element2d) (out : List Element2d),
      els.foldl (mapInvertStep orc) (XBool.xtrue, out) =
        (XBool.xtrue, out ++ els.map Element2d.invert) := by
  intro els
  induction els with
  | nil => intro out; simp
  | cons el rest ih =>
      intro out
      rw [List.foldl_cons, show mapInvertStep orc (XBool.xtrue, out) el =
        (XBool.xtrue, out ++ [el.invert]) from by simp [mapInvertStep], ih]
      simp

/-- **C2** (amended).  In `MapSurfaceMesh`, when the destination face has no
`primary_to_me` transformation, `do_invert` is forced to `true`
(line 1124), the normal-based orientation test is never consulted, and
*every* copied surface element has its winding inverted. -/
theorem mapSurfaceMesh_no_trafo_inverts (orc : ℕ → Bool)
    (els : List Element2d) :
    mapSurfaceMeshInvert none orc els = els.map Element2d.invert := by
  show ((els.foldl (mapInvertStep orc) (XBool.xtrue, [])).2 : List Element2d) = _
  rw [mapInvertStep_fold_true]
  simp

/-- **C2** (counterexample).  The claim says elements are left as-is when no
transformation exists; the code inverts them: a single copied triangle
comes out with its winding reversed. -/
theorem mapSurfaceMesh_no_trafo_counterexample :
    mapSurfaceMeshInvert none (fun _ => false) [⟨[1, 2, 3], false⟩] =
        [⟨[1, 2, 3], true⟩] ∧
      Element2d.inverted ⟨[1, 2, 3], true⟩ ≠ Element2d.inverted ⟨[1, 2, 3], false⟩ := by
  constructor
  · rfl
  · decide

/-- **C6** (amended).  `MeshSurface` restores the saved task label on the
normal exit path: when no face fails, the final label is the caller's
`savetask`. -/
theorem meshSurface_restores_task (outcomes : List FaceOutcome)
    (mparam : MeshingParameters) (savetask : String)
    (h : countFailedFaces outcomes = 0) :
    meshSurfaceFinalTask outcomes mparam savetask = savetask := by
  unfold meshSurfaceFinalTask meshSurfaceTaskEvents
  rw [if_neg (by simp [h])]
  rcases Decidable.em (4 ≤ mparam.perfstepsend) with hopt | hopt
  · rw [if_pos hopt]; rfl
  · rw [if_neg hopt]; rfl

/-- **C6** (witness). -/
theorem meshSurface_restores_task_witness :
    meshSurfaceFinalTask [FaceOutcome.meshed false, FaceOutcome.connecting]
        ⟨1, 0, 1/2, 1, 1, none, true, [], 1, 6⟩ "Mesh Edges" = "Mesh Edges" :=
  meshSurface_restores_task _ _ _ (by decide)

/-- **C6** (counterexample).  On the early return taken when a face fails to
mesh (lines 978–983), the label is *not* restored: it stays
`"Mesh Surface"` instead of the saved outer label. -/
theorem meshSurface_failed_leaves_task :
    meshSurfaceFinalTask [FaceOutcome.meshed true]
        ⟨1, 0, 1/2, 1, 1, none, true, [], 1, 6⟩ "outer task" = "Mesh Surface" ∧
      ("Mesh Surface" : String) ≠ "outer task" := by
  constructor
  · rfl
  · decide

/-- **C7**.  In `FindEdges`, a primary edge without a partition override whose
start and end vertices are CLOSESURFACES-identified to each other gets the
trivial partition: `params = [0, 1]`, no interior points, and exactly one
segment (the branch performs no division at all, so no division by zero can
occur). -/
theorem findEdges_identified_edge (norm : Point3 → ℚ) (g : NetgenGeometry)
    (e : GeometryEdge) (mp : MeshingParameters) (getH : Point3 → ℕ → ℚ)
    (hpart : e.partition = none) (hid : isIdentifiedEdge g e = true) :
    findEdgesPrimaryBranch norm g e mp getH = ([0, 1], []) ∧
      edgeSegmentCount (findEdgesPrimaryBranch norm g e mp getH) = 1 := by
  unfold findEdgesPrimaryBranch edgeSegmentCount
  rw [hid]
  simp

/-- Concrete geometry for the C7 witness: one edge whose two vertices are
CLOSESURFACES-identified. -/
def gC7 : NetgenGeometry :=
  { vertices :=
      [⟨⟨0, 0, 0⟩, [⟨0, 1, none, .closesurfaces, "cs"⟩]⟩, ⟨⟨0, 0, 1⟩, []⟩]
    edges := [{ (default : GeometryEdge) with startVertex := 0, endVertex := 1 }]
    faces := []
    diam := 2 }

/-- **C7** (witness). -/
theorem findEdges_identified_edge_witness :
    findEdgesPrimaryBranch axisNorm gC7 (gC7.edge 0)
        ⟨1, 0, 1/2, 1, 1, none, true, [], 1, 6⟩ (fun _ _ => 1) = ([0, 1], []) ∧
      edgeSegmentCount (findEdgesPrimaryBranch axisNorm gC7 (gC7.edge 0)
        ⟨1, 0, 1/2, 1, 1, none, true, [], 1, 6⟩ (fun _ _ => 1)) = 1 :=
  findEdges_identified_edge _ _ _ _ _ rfl (by decide)

/-- **C9**.  Calling `IsMappedShape` on a vertex, edge or face with an
argument of a different dynamic kind returns `false` (the `dynamic_cast`
fails; nothing is thrown); only a shape without an override — the base
`GeometryShape::IsMappedShape` — throws. -/
theorem isMappedShape_cross_kind (g : NetgenGeometry) (s o : GShape)
    (trafo : Trafo) (tol : ℚ) (hk : s.kind ≠ o.kind) (hs : s.kind ≠ .solidK) :
    isMappedShape g s o trafo tol = .ok false := by
  cases s <;> cases o <;> simp_all [GShape.kind, isMappedShape]

/-- **C9** (witness): a vertex asked about an edge. -/
theorem isMappedShape_cross_kind_witness :
    isMappedShape ⟨[], [], [], 1⟩ (.vert ⟨⟨0, 0, 0⟩, []⟩) (.edge default)
        Trafo.idT 1 = .ok false :=
  isMappedShape_cross_kind _ _ _ _ _ (by decide) (by decide)

/-- **C4** (amended).  `GeometryFace::IsMappedShape` returns `true` only if
the face centers are within `tol`, the edge counts are equal, and every own
edge matches *exactly one* edge of the other face under the edge-level
predicate — but this does not force the match relation to be injective
across edges, so no exact bijection is implied. -/
theorem faceIsMappedShape_only_if (g : NetgenGeometry) (f fo : GeometryFace)
    (trafo : Trafo) (tol : ℚ) (h : f.isMappedFace g fo trafo tol = true) :
    distGtB f.center fo.center tol = false ∧
      f.edges.length = fo.edges.length ∧
      ∀ e ∈ f.edges,
        (fo.edges.countP fun eo =>
          (g.edge e).isMappedEdge g (g.edge eo) trafo tol) = 1 := by
  unfold GeometryFace.isMappedFace at h
  split at h
  · exact absurd h (by simp)
  · split at h
    · exact absurd h (by simp)
    · refine ⟨by simp_all, by simp_all, ?_⟩
      intro e he
      have := List.all_eq_true.mp h e he
      simpa using this

/-- Concrete geometry refuting the bijection reading of C4: edges 0 and 1
(the self face's) and edge 2 coincide geometrically, edge 3 is far away;
both self edges match edge 2 exactly, and nothing matches edge 3. -/
def gC4 : NetgenGeometry :=
  { vertices := [⟨⟨0, 0, 0⟩, []⟩, ⟨⟨10, 0, 0⟩, []⟩, ⟨⟨100, 0, 0⟩, []⟩,
      ⟨⟨110, 0, 0⟩, []⟩]
    edges :=
      [{ (default : GeometryEdge) with
          startVertex := 0, endVertex := 1, center := ⟨5, 0, 0⟩ },
       { (default : GeometryEdge) with
          startVertex := 0, endVertex := 1, center := ⟨5, 0, 0⟩ },
       { (default : GeometryEdge) with
          startVertex := 0, endVertex := 1, center := ⟨5, 0, 0⟩ },
       { (default : GeometryEdge) with
          startVertex := 2, endVertex := 3, center := ⟨105, 0, 0⟩ }]
    faces :=
      [⟨⟨50, 0, 0⟩, [0, 1], []⟩, ⟨⟨50, 0, 0⟩, [2, 3], []⟩]
    diam := 120 }

/-- The self face of the C4 counterexample. -/
def faceC4a : GeometryFace := gC4.faces.getD 0 default

/-- The other face of the C4 counterexample. -/
def faceC4b : GeometryFace := gC4.faces.getD 1 default

/-- **C4** (counterexample).  The face predicate answers `true` although no
self edge matches the other face's edge 3, so no bijection between the edge
lists under the edge-level predicate exists (the match relation sends both
self edges to edge 2, a non-injective assignment). -/
theorem faceIsMappedShape_no_bijection :
    faceC4a.isMappedFace gC4 faceC4b Trafo.idT 1 = true ∧
      3 ∈ faceC4b.edges ∧
      (∀ e ∈ faceC4a.edges,
        (gC4.edge e).isMappedEdge gC4 (gC4.edge 3) Trafo.idT 1 = false) ∧
      ¬∃ σ : Fin 2 → Fin 2, Function.Bijective σ ∧
        ∀ i : Fin 2,
          (gC4.edge (faceC4a.edges.getD i 0)).isMappedEdge gC4
            (gC4.edge (faceC4b.edges.getD (σ i) 0)) Trafo.idT 1 = true := by
  have hmatch3 : ∀ e ∈ faceC4a.edges,
      (gC4.edge e).isMappedEdge gC4 (gC4.edge 3) Trafo.idT 1 = false := by
    intro e he
    have : e = 0 ∨ e = 1 := by
      simpa [faceC4a, gC4] using he
    rcases this with h | h <;> subst h <;> with_unfolding_all rfl
  refine ⟨by with_unfolding_all rfl, by decide, hmatch3, ?_⟩
  rintro ⟨σ, hbij, hall⟩
  obtain ⟨i, hi⟩ := hbij.2 1
  have h3 : faceC4b.edges.getD (σ i) 0 = 3 := by rw [hi]; rfl
  have hthis := hall i
  rw [h3] at hthis
  have hcase : faceC4a.edges.getD (i : ℕ) 0 = 0 ∨
      faceC4a.edges.getD (i : ℕ) 0 = 1 := by
    rcases i with ⟨iv, hiv⟩
    interval_cases iv
    · exact Or.inl rfl
    · exact Or.inr rfl
  rcases hcase with hc | hc <;> rw [hc] at hthis
  · rw [hmatch3 0 (by decide)] at hthis
    exact Bool.false_ne_true hthis
  · rw [hmatch3 1 (by decide)] at hthis
    exact Bool.false_ne_true hthis

/-- **C4** (witness for the amended theorem, instantiated at edge 0). -/
theorem faceIsMappedShape_only_if_witness :
    distGtB faceC4a.center faceC4b.center 1 = false ∧
      faceC4a.edges.length = faceC4b.edges.length ∧
      (faceC4b.edges.countP fun eo =>
        (gC4.edge 0).isMappedEdge gC4 (gC4.edge eo) Trafo.idT 1) = 1 := by
  have h := faceIsMappedShape_only_if gC4 faceC4a faceC4b Trafo.idT 1
    (by with_unfolding_all rfl)
  exact ⟨h.1, h.2.1, h.2.2 0 (by decide)⟩

/-- Appending performed by `mirrorRecord` never removes records. -/
theorem mirrorRecord_mem_mono (s : ℕ) (st : ℕ → List Identification)
    (r : Identification) (k : ℕ) (x : Identification) (hx : x ∈ st k) :
    x ∈ mirrorRecord s st r k := by
  unfold mirrorRecord
  split
  · by_cases hk : k = r.to_
    · subst hk; simp [hx]
    · simp [hk, hx]
  · exact hx

/-- Monotonicity of the inner mirror fold. -/
theorem mirrorInner_mem_mono (s : ℕ) (x : Identification) (k : ℕ) :
    ∀ (L : List Identification) (st : ℕ → List Identification),
      x ∈ st k → x ∈ (L.foldl (mirrorRecord s) st) k := by
  intro L
  induction L with
  | nil => intro st hx; simpa using hx
  | cons a L ih =>
      intro st hx
      exact ih _ (mirrorRecord_mem_mono s st a k x hx)

/-- Monotonicity of one `mirror_identifications` step. -/
theorem mirrorStep_mem_mono (st : ℕ → List Identification) (j k : ℕ)
    (x : Identification) (hx : x ∈ st k) : x ∈ mirrorStep st j k :=
  mirrorInner_mem_mono j x k (st j) st hx

/-- Monotonicity of the whole mirror pass. -/
theorem mirrorFold_mem_mono (x : Identification) (k : ℕ) :
    ∀ (ns : List ℕ) (st : ℕ → List Identification),
      x ∈ st k → x ∈ (ns.foldl mirrorStep st) k := by
  intro ns
  induction ns with
  | nil => intro st hx; simpa using hx
  | cons j ns ih => intro st hx; exact ih _ (mirrorStep_mem_mono st j k x hx)

/-- A record whose `from` is the owning shape is never *added* to that
shape's list by `mirrorRecord` (appended records land on their `to` list
and have `from ≠ to`). -/
theorem mirrorRecord_from_mem (s : ℕ) (st : ℕ → List Identification)
    (r : Identification) (k : ℕ) (x : Identification)
    (hx : x ∈ mirrorRecord s st r k) (hf : x.from_ = k) : x ∈ st k := by
  unfold mirrorRecord at hx
  by_cases hc : r.from_ = s ∧ r.to_ ≠ s
  · rw [if_pos hc] at hx
    by_cases hk : k = r.to_
    · subst hk
      rw [if_pos rfl] at hx
      rcases List.mem_append.mp hx with hx | hx
      · exact hx
      · rw [List.mem_singleton] at hx
        subst hx
        exact False.elim (hc.2 (hc.1.symm.trans hf).symm)
    · rwa [if_neg hk] at hx
  · rwa [if_neg hc] at hx

/-- Inner-fold version of `mirrorRecord_from_mem`. -/
theorem mirrorInner_from_mem (s : ℕ) (x : Identification) (k : ℕ)
    (hf : x.from_ = k) :
    ∀ (L : List Identification) (st : ℕ → List Identification),
      x ∈ (L.foldl (mirrorRecord s) st) k → x ∈ st k := by
  intro L
  induction L with
  | nil => intro st hx; simpa using hx
  | cons a L ih =>
      intro st hx
      exact mirrorRecord_from_mem s st a k x (ih _ hx) hf

/-- Step version of `mirrorRecord_from_mem`. -/
theorem mirrorStep_from_mem (st : ℕ → List Identification) (j k : ℕ)
    (x : Identification) (hx : x ∈ mirrorStep st j k) (hf : x.from_ = k) :
    x ∈ st k :=
  mirrorInner_from_mem j x k hf (st j) st hx

/-- Whole-pass version of `mirrorRecord_from_mem`: a record lying on its own
`from` list after mirroring was there before mirroring. -/
theorem mirrorFold_from_mem (x : Identification) (k : ℕ) (hf : x.from_ = k) :
    ∀ (ns : List ℕ) (st : ℕ → List Identification),
      x ∈ (ns.foldl mirrorStep st) k → x ∈ st k := by
  intro ns
  induction ns with
  | nil => intro st hx; simpa using hx
  | cons j ns ih =>
      intro st hx
      exact mirrorStep_from_mem st j k x (ih _ hx) hf

/-- Processing shape `j` mirrors each of its own outgoing records onto the
record's `to` list. -/
theorem mirrorStep_mirrors (st : ℕ → List Identification) (j : ℕ)
    (r : Identification) (hr : r ∈ st j) (hf : r.from_ = j) (ht : r.to_ ≠ j) :
    r ∈ mirrorStep st j r.to_ := by
  unfold mirrorStep
  have aux : ∀ (L : List Identification) (st' : ℕ → List Identification),
      r ∈ L → r ∈ (L.foldl (mirrorRecord j) st') r.to_ := by
    intro L
    induction L with
    | nil => intro st' hx; simp at hx
    | cons a L ih =>
        intro st' hx
        rw [List.foldl_cons]
        rcases List.mem_cons.mp hx with hx | hx
        · subst hx
          apply mirrorInner_mem_mono
          unfold mirrorRecord
          rw [if_pos ⟨hf, ht⟩, if_pos rfl]
          simp
        · exact ih _ hx
  exact aux (st j) st hr

/-- **C5**.  After the mirroring step, every identification record with
`from ≠ to` lying on its `from` shape's list has a matching record (same
kind and name — in fact the identical record) on its `to` shape's list. -/
theorem mirror_identifications_symmetric :
    ∀ (n : ℕ) (st0 : ℕ → List Identification) (i : ℕ) (r : Identification),
      i < n → r ∈ mirrorIdentifications n st0 i → r.from_ = i → r.to_ ≠ i →
      ∃ r' ∈ mirrorIdentifications n st0 r.to_,
        r'.type = r.type ∧ r'.name = r.name := by
  intro n
  induction n with
  | zero => intro st0 i r hi; exact (Nat.not_lt_zero i hi).elim
  | succ n ih =>
      intro st0 i r hi hr hf ht
      have hsplit : mirrorIdentifications (n + 1) st0 =
          mirrorStep (mirrorIdentifications n st0) n := by
        unfold mirrorIdentifications
        rw [List.range_succ, List.foldl_append]
        rfl
      rw [hsplit] at hr ⊢
      rcases Nat.lt_succ_iff_lt_or_eq.mp hi with hlt | heq
      · obtain ⟨r', hr', hty, hna⟩ :=
          ih st0 i r hlt (mirrorStep_from_mem _ n i r hr hf) hf ht
        exact ⟨r', mirrorStep_mem_mono _ n r.to_ r' hr', hty, hna⟩
      · subst heq
        have h0 : r ∈ mirrorIdentifications i st0 i :=
          mirrorStep_from_mem _ i i r hr hf
        exact ⟨r, mirrorStep_mirrors _ i r h0 hf ht, rfl, rfl⟩

/-- **C5** (witness): a single record `0 → 1` mirrored onto shape 1. -/
theorem mirror_identifications_symmetric_witness :
    ∃ r' ∈ mirrorIdentifications 2
        (fun k => if k = 0 then [⟨0, 1, none, .periodic, "p"⟩] else []) 1,
      r'.type = IdentType.periodic ∧ r'.name = "p" :=
  mirror_identifications_symmetric 2 _ 0 ⟨0, 1, none, .periodic, "p"⟩
    (by decide) (by decide) rfl (by decide)

/-- Fold-to-map lemma for loops that append one event per index. -/
theorem foldl_append_singleton {α : Type} (f : ℕ → α) :
    ∀ (L : List ℕ) (acc : List α),
      L.foldl (fun a i => a ++ [f i]) acc = acc ++ L.map f := by
  intro L
  induction L with
  | nil => intro acc; simp
  | cons i L ih => intro acc; simp [ih]

/-- **C8**.  In the sizing pass, an edge at least `1e-3 · diam` long issues
exactly the 21 restrictions `(GetPoint(i/20), length/segmentsperedge)`,
`i = 0..20`, from the length-based loop (followed by the separate
curvature-walk restrictions), while a shorter edge is skipped outright and
contributes no restriction at all. -/
theorem analyse_edge_sizing (norm : Point3 → ℚ) (e : GeometryEdge)
    (mp : MeshingParameters) (diam : ℚ) (fuel : ℕ) :
    ((1 / 1000) * diam ≤ e.length →
      analyseEdgeEvents norm e mp diam fuel =
        ((List.range (20 + 1)).map fun i =>
            (e.getPoint ((i : ℚ) / 20), e.length / mp.segmentsperedge)) ++
          curvatureWalk norm e mp diam fuel) ∧
    (e.length < (1 / 1000) * diam →
      analyseEdgeEvents norm e mp diam fuel = []) := by
  constructor <;> intro h <;> unfold analyseEdgeEvents
  · rw [if_neg (not_lt.mpr h)]
    have : edgeLenRestrictions e mp = (List.range (20 + 1)).map fun i =>
        (e.getPoint ((i : ℚ) / 20), e.length / mp.segmentsperedge) := by
      unfold edgeLenRestrictions
      exact (foldl_append_singleton
        (fun i : ℕ => (e.getPoint ((i : ℚ) / 20), e.length / mp.segmentsperedge))
        (List.range (20 + 1)) []).trans (List.nil_append _)
    rw [this]
  · rw [if_pos h]

/-- A long edge (length 1) on the x-axis for the C8 witness. -/
def eC8long : GeometryEdge :=
  { (default : GeometryEdge) with length := 1, getPoint := fun t => ⟨t, 0, 0⟩ }

/-- A short edge (length 0) for the C8 witness. -/
def eC8short : GeometryEdge := (default : GeometryEdge)

/-- **C8** (witness): with `diam = 1`, the long edge gets exactly the 21
uniform length-based restrictions followed by the walk; the short edge
contributes nothing. -/
theorem analyse_edge_sizing_witness :
    (analyseEdgeEvents axisNorm eC8long ⟨1, 0, 1/2, 2, 1, none, true, [], 1, 6⟩
        1 3 =
      ((List.range (20 + 1)).map fun i =>
          (eC8long.getPoint ((i : ℚ) / 20),
            eC8long.length /
              (⟨1, 0, 1/2, 2, 1, none, true, [], 1, 6⟩ :
                MeshingParameters).segmentsperedge)) ++
        curvatureWalk axisNorm eC8long ⟨1, 0, 1/2, 2, 1, none, true, [], 1, 6⟩
          1 3) ∧
    analyseEdgeEvents axisNorm eC8short ⟨1, 0, 1/2, 2, 1, none, true, [], 1, 6⟩
        1 3 = [] :=
  ⟨(analyse_edge_sizing axisNorm eC8long _ 1 3).1
      (by show (1 : ℚ)/1000 * 1 ≤ (1 : ℚ); norm_num),
   (analyse_edge_sizing axisNorm eC8short _ 1 3).2
      (by show (0 : ℚ) < (1 : ℚ)/1000 * 1; norm_num)⟩

/-- **C10**.  `GenerateMesh` never modifies the caller's
`MeshingParameters`: the returned `mp` equals the argument, and every
pipeline stage is invoked with the local adjusted copy (the argument plus
the `restricted_h` points), never with `mp` itself mutated. -/
theorem generateMesh_frame (g : NetgenGeometry)
    (restricted_h : List (Point3 × ℚ)) (terminate : Bool) (dimension : ℕ)
    (volumeFail : Bool) (mp : MeshingParameters) :
    (g.generateMesh restricted_h terminate dimension volumeFail mp).mpAfter
        = mp ∧
      ∀ s ∈ (g.generateMesh restricted_h terminate dimension volumeFail
          mp).stages, s.2 = adjustedMp mp restricted_h := by
  unfold NetgenGeometry.generateMesh
  dsimp only
  set m := adjustedMp mp restricted_h with hm
  have hpiece : ∀ (c : Prop) (inst : Decidable c) (nm : String),
      ∀ s ∈ (if c then [(nm, m)] else []), s.2 = m := by
    intro c inst nm s hs
    split at hs
    · rw [List.mem_singleton] at hs; subst hs; rfl
    · simp at hs
  have hsingle : ∀ nm : String, ∀ s ∈ [(nm, m)], s.2 = m := by
    intro nm s hs
    rw [List.mem_singleton] at hs; subst hs; rfl
  have happend : ∀ (L1 L2 : List (String × MeshingParameters)),
      (∀ s ∈ L1, s.2 = m) → (∀ s ∈ L2, s.2 = m) → ∀ s ∈ L1 ++ L2, s.2 = m := by
    intro L1 L2 h1 h2 s hs
    rcases List.mem_append.mp hs with hs | hs
    exacts [h1 s hs, h2 s hs]
  by_cases h1 : terminate = true ∨ m.perfstepsend ≤ MESHCONST_ANALYSE
  · rw [if_pos h1]
    exact ⟨rfl, hpiece _ _ _⟩
  rw [if_neg h1]
  by_cases h2 : terminate = true ∨ m.perfstepsend ≤ MESHCONST_MESHEDGES
  · rw [if_pos h2]
    exact ⟨rfl, happend _ _ (hpiece _ _ _) (hpiece _ _ _)⟩
  rw [if_neg h2]
  by_cases h3 : dimension = 1
  · rw [if_pos h3]
    exact ⟨rfl, happend _ _ (happend _ _ (hpiece _ _ _) (hpiece _ _ _))
      (hsingle _)⟩
  rw [if_neg h3]
  by_cases h4 : terminate = true ∨ m.perfstepsend ≤ MESHCONST_OPTSURFACE
  · rw [if_pos h4]
    exact ⟨rfl, happend _ _ (happend _ _ (hpiece _ _ _) (hpiece _ _ _))
      (hpiece _ _ _)⟩
  rw [if_neg h4]
  by_cases h5 : dimension = 2
  · rw [if_pos h5]
    exact ⟨rfl, happend _ _ (happend _ _ (happend _ _ (hpiece _ _ _)
      (hpiece _ _ _)) (hpiece _ _ _)) (hsingle _)⟩
  rw [if_neg h5]
  by_cases h6 : m.perfstepsstart ≤ MESHCONST_MESHVOLUME ∧ volumeFail = true
  · rw [if_pos h6]
    exact ⟨rfl, happend _ _ (happend _ _ (happend _ _ (hpiece _ _ _)
      (hpiece _ _ _)) (hpiece _ _ _)) (hpiece _ _ _)⟩
  rw [if_neg h6]
  by_cases h7 : m.perfstepsstart ≤ MESHCONST_MESHVOLUME ∧ terminate = true
  · rw [if_pos h7]
    exact ⟨rfl, happend _ _ (happend _ _ (happend _ _ (hpiece _ _ _)
      (hpiece _ _ _)) (hpiece _ _ _)) (hpiece _ _ _)⟩
  rw [if_neg h7]
  by_cases h8 : terminate = true ∨ m.perfstepsend ≤ MESHCONST_MESHVOLUME
  · rw [if_pos h8]
    exact ⟨rfl, happend _ _ (happend _ _ (happend _ _ (happend _ _
      (hpiece _ _ _) (hpiece _ _ _)) (hpiece _ _ _)) (hpiece _ _ _))
      (hpiece _ _ _)⟩
  rw [if_neg h8]
  by_cases h9 : m.perfstepsstart ≤ MESHCONST_OPTVOLUME ∧ terminate = true
  · rw [if_pos h9]
    exact ⟨rfl, happend _ _ (happend _ _ (happend _ _ (happend _ _
      (happend _ _ (hpiece _ _ _) (hpiece _ _ _)) (hpiece _ _ _))
      (hpiece _ _ _)) (hpiece _ _ _)) (hpiece _ _ _)⟩
  rw [if_neg h9]
  exact ⟨rfl, happend _ _ (happend _ _ (happend _ _ (happend _ _ (happend _ _
    (happend _ _ (hpiece _ _ _) (hpiece _ _ _)) (hpiece _ _ _))
    (hpiece _ _ _)) (hpiece _ _ _)) (hpiece _ _ _)) (hsingle _)⟩

/-- **C10** (witness): a run gated to the Analyse stage only, instantiated
at that stage's trace entry. -/
theorem generateMesh_frame_witness :
    ((⟨[], [], [], 1⟩ : NetgenGeometry).generateMesh [] false 3 false
        ⟨1, 0, 1/2, 1, 1, none, true, [], 1, 1⟩).mpAfter =
        ⟨1, 0, 1/2, 1, 1, none, true, [], 1, 1⟩ ∧
      ("Analyse",
          adjustedMp ⟨1, 0, 1/2, 1, 1, none, true, [], 1, 1⟩ []).2 =
        adjustedMp ⟨1, 0, 1/2, 1, 1, none, true, [], 1, 1⟩ [] := by
  have h := generateMesh_frame ⟨[], [], [], 1⟩ [] false 3 false
    ⟨1, 0, 1/2, 1, 1, none, true, [], 1, 1⟩
  refine ⟨h.1, h.2 _ ?_⟩
  rw [show ((⟨[], [], [], 1⟩ : NetgenGeometry).generateMesh [] false 3 false
      ⟨1, 0, 1/2, 1, 1, none, true, [], 1, 1⟩).stages =
      [("Analyse", adjustedMp ⟨1, 0, 1/2, 1, 1, none, true, [], 1, 1⟩ [])]
    from by with_unfolding_all rfl]
  exact List.mem_singleton.mpr rfl

/-- The `find_primary` update preserves `primary->nr ≤ nr`: a new primary is
some current primary with a strictly smaller `nr`. -/
theorem fpIdentStep_prim_le (s : ℕ) (acc : FPState × Bool)
    (r : Identification) (h : ∀ k, acc.1.prim k ≤ k) (k : ℕ) :
    (fpIdentStep s acc r).1.prim k ≤ k := by
  unfold fpIdentStep
  dsimp only
  set o := if r.from_ = s then r.to_ else r.from_ with ho
  split
  · rename_i hlt
    split
    next =>
      show (if k = s then acc.1.prim o else acc.1.prim k) ≤ k
      by_cases hk : k = s
      · subst hk
        rw [if_pos rfl]
        exact le_of_lt (lt_of_lt_of_le hlt (h _))
      · rw [if_neg hk]
        exact h k
    next t =>
      show (if k = s then acc.1.prim o else acc.1.prim k) ≤ k
      by_cases hk : k = s
      · subst hk
        rw [if_pos rfl]
        exact le_of_lt (lt_of_lt_of_le hlt (h _))
      · rw [if_neg hk]
        exact h k
  · exact h k

/-- Fold version of `fpIdentStep_prim_le` over one shape's records. -/
theorem fpFoldIdents_prim_le (s : ℕ) :
    ∀ (L : List Identification) (acc : FPState × Bool),
      (∀ k, acc.1.prim k ≤ k) → ∀ k,
        ((L.foldl (fpIdentStep s) acc).1.prim k ≤ k) := by
  intro L
  induction L with
  | nil => intro acc h k; exact h k
  | cons r L ih =>
      intro acc h k
      exact ih _ (fpIdentStep_prim_le s acc r h) k

/-- One sweep preserves `primary->nr ≤ nr`. -/
theorem fpSweep_prim_le (n : ℕ) (identsOf : ℕ → List Identification)
    (st : FPState) (h : ∀ k, st.prim k ≤ k) (k : ℕ) :
    (fpSweep n identsOf st).1.prim k ≤ k := by
  unfold fpSweep
  have aux : ∀ (ns : List ℕ) (acc : FPState × Bool),
      (∀ k, acc.1.prim k ≤ k) → ∀ k,
        ((ns.foldl (fun acc s => (identsOf s).foldl (fpIdentStep s) acc)
          acc).1.prim k ≤ k) := by
    intro ns
    induction ns with
    | nil => intro acc h k; exact h k
    | cons s ns ih =>
        intro acc h k
        exact ih _ (fun k => fpFoldIdents_prim_le s (identsOf s) acc h k) k
  exact aux (List.range n) (st, false) h k

/-- The whole relaxation preserves `primary->nr ≤ nr`. -/
theorem fpLoop_prim_le (n : ℕ) (identsOf : ℕ → List Identification) :
    ∀ (fuel : ℕ) (st : FPState), (∀ k, st.prim k ≤ k) → ∀ k,
      (fpLoop n identsOf fuel st).prim k ≤ k := by
  intro fuel
  induction fuel with
  | zero => intro st h k; exact h k
  | succ fuel ih =>
      intro st h k
      unfold fpLoop
      dsimp only
      split
      · exact ih _ (fun k => fpSweep_prim_le n identsOf st h k) k
      · exact fpSweep_prim_le n identsOf st h k

/-- `find_primary` yields index-minimal-bounded primaries. -/
theorem findPrimary_prim_le (n : ℕ) (identsOf : ℕ → List Identification)
    (ptm0 : ℕ → Option Trafo) (k : ℕ) :
    (findPrimary n identsOf ptm0).prim k ≤ k :=
  fpLoop_prim_le n identsOf (n * n + 1) _ (fun _ => le_refl _) k

/-- **C1** (amended).  After `ProcessIdentifications`, every shape's primary
pointer is index-minimal-bounded: `primary(s).nr ≤ s.nr` for vertices,
edges and faces.  (Idempotence `primary(primary(s)) = primary(s)` does
*not* hold in general — see the counterexample.) -/
theorem processIdentifications_primary_monotone (g : NetgenGeometry) (k : ℕ) :
    (g.processIdentifications).vPrim.prim k ≤ k ∧
      (g.processIdentifications).ePrim.prim k ≤ k ∧
      (g.processIdentifications).fPrim.prim k ≤ k := by
  unfold NetgenGeometry.processIdentifications
  dsimp only
  exact ⟨findPrimary_prim_le _ _ _ k, findPrimary_prim_le _ _ _ k,
    findPrimary_prim_le _ _ _ k⟩

/-- A 7-vertex geometry on which the primary relaxation stops early: the
trafo-less identifications (records without transformations do not set the
`changed` flag, lines 325–336) are 1↔4, 4↔0, 3↔1, 2↔3, and one
transformation-carrying pair 6↔5 forces exactly one extra sweep. -/
def gC1 : NetgenGeometry :=
  { vertices :=
      [⟨⟨0, 0, 0⟩, []⟩,
       ⟨⟨0, 0, 0⟩, [⟨1, 4, none, .periodic, "c"⟩]⟩,
       ⟨⟨0, 0, 0⟩, [⟨2, 3, none, .periodic, "b"⟩]⟩,
       ⟨⟨0, 0, 0⟩, [⟨3, 1, none, .periodic, "a"⟩]⟩,
       ⟨⟨0, 0, 0⟩, [⟨4, 0, none, .periodic, "d"⟩]⟩,
       ⟨⟨0, 0, 0⟩, []⟩,
       ⟨⟨0, 0, 0⟩, [⟨6, 5, some Trafo.idT, .periodic, "e"⟩]⟩]
    edges := []
    faces := []
    diam := 1 }

/-- **C1** (counterexample).  On `gC1` the relaxation terminates (the final
sweep performs only trafo-less updates, which do not set `changed`) with
`primary(2) = 1` but `primary(1) = 0`: the primary pointer is *not*
idempotent, refuting `primary(primary(s)) = primary(s)`. -/
theorem processIdentifications_not_idempotent :
    (gC1.processIdentifications).vPrim.prim 2 = 1 ∧
      (gC1.processIdentifications).vPrim.prim
          ((gC1.processIdentifications).vPrim.prim 2) ≠
        (gC1.processIdentifications).vPrim.prim 2 := by
  decide

/-- A constant local mesh size of 1 (the sizing-octree collaborator for the
C3 runs). -/
def getH1 : Point3 → ℕ → ℚ := fun _ _ => 1

/-- An edge whose parametrization is constant at the origin and whose tangent
has length 1: every marching step advances `lam` by `safety` while the
arc-length integral stays 0. -/
def edgeC3 : GeometryEdge :=
  { startVertex := 0
    endVertex := 0
    center := ⟨0, 0, 0⟩
    getPoint := fun _ => ⟨0, 0, 0⟩
    tangentLen := fun _ => 1
    calcStep := fun _ _ => 1
    length := 0
    isDegenerated := fun _ => false
    isDegeneratedDefault := false
    projectParam := fun _ => 0
    partition := none
    layer := 1
    hpref := false
    identifications := [] }

/-- Meshing parameters with `grading = 1 - 2/100000`, so the divider's
safety factor `0.5·(1-grading)` is exactly `1/100000` and the marching
needs 100000 steps to reach `t = 1` — more than the 20000-iteration cap. -/
def mpC3 : MeshingParameters :=
  ⟨1, 0, 49999 / 50000, 1, 1, none, true, [], 1, 6⟩

/-- The marching state after `k` iterations on `edgeC3`:
`lam = k/100000`, all `hvalue` entries 0, `fine_params` the visited
parameters (newest first). -/
def stC3 (k : ℕ) : MarchState :=
  ⟨(k : ℚ) / 100000, ⟨0, 0, 0⟩, k + 1, List.replicate (k + 1) 0,
    ((List.range k).reverse).map fun j => (j : ℚ) / 100000⟩

/-- Closed form of the marching loop on `edgeC3`: it runs to the
20000-entry cap with `lam = 19999/100000 < 1`. -/
theorem marchC3 :
    ∀ (fuel k : ℕ), fuel + k = 20000 → k ≤ 19999 →
      marchLoop axisNorm edgeC3 getH1 (1 / 100000) fuel (stC3 k) =
        stC3 19999 := by
  intro fuel
  induction fuel with
  | zero => intro k hfk hk; omega
  | succ fuel ih =>
      intro k hfk hk
      by_cases hk19 : k = 19999
      · subst hk19
        rw [marchLoop, if_neg (by
          rintro ⟨-, h2⟩
          have hsz : (stC3 19999).hsize = 20000 := rfl
          omega)]
      · have hklt : k < 19999 := by omega
        rw [marchLoop, if_pos ⟨by
            show (k : ℚ) / 100000 < 1
            rw [div_lt_one (by norm_num)]
            exact_mod_cast (by omega : k < 100000),
          by show k + 1 < 20000; omega⟩]
        dsimp only
        convert ih (k + 1) (by omega) (by omega) using 2
        have harith : (k : ℚ) / 100000 + 1 / 100000 * 1 / 1 =
            ((k + 1 : ℕ) : ℚ) / 100000 := by push_cast; ring
        have hle : ((k + 1 : ℕ) : ℚ) / 100000 ≤ 1 := by
          rw [div_le_one (by norm_num)]
          exact_mod_cast (by omega : k + 1 ≤ 100000)
        simp only [stC3, getH1, edgeC3, axisNorm]
        rw [MarchState.mk.injEq]
        refine ⟨?_, ?_, rfl, ?_, ?_⟩
        · rw [harith, min_eq_left hle]
        · rfl
        · have hsub : (⟨0, 0, 0⟩ - ⟨0, 0, 0⟩ : Point3) = ⟨0, 0, 0⟩ := by
            show Point3.sub _ _ = _
            simp [Point3.sub]
          rw [hsub]
          show (((List.replicate (k + 1) 0).headD 0 : ℚ) + 1 / 1 * |(0 : ℚ)|)
              :: List.replicate (k + 1) (0 : ℚ) =
            List.replicate (k + 1 + 1) (0 : ℚ)
          rw [List.replicate_succ (n := k + 1)]
          congr 1
          rw [List.replicate_succ]
          simp
        · rw [List.range_succ]
          simp

/-- **C3** (counterexample).  On `edgeC3` the marching loop hits the
20000-iteration cap with `lam = 19999/100000 < 1`, so the warning fires
(`warnedCap = true`) — but the output is *not* truncated: neither shrink
(`runoff`, `corrected`) occurs, and `params = [0, 1]` is the full
`nsubedges + 1 = 2`-entry result. -/
theorem divide_cap_warns_without_truncation :
    edgeC3.divide axisNorm mpC3 getH1 =
      ⟨[], [0, 1], true, false, false, 1⟩ := by
  unfold GeometryEdge.divide
  rw [show edgeC3.partition = none from rfl]
  dsimp only
  rw [show (1 / 2 : ℚ) * (1 - mpC3.grading) = 1 / 100000 from by
    rw [show mpC3.grading = 49999 / 50000 from rfl]; norm_num]
  rw [show (⟨0, edgeC3.getPoint 0, 1, [0], []⟩ : MarchState) = stC3 0 from by
    simp [stC3, edgeC3]]
  rw [marchC3 20000 0 rfl (by omega)]
  with_unfolding_all rfl

/-- Invariant of the interpolation loop: as long as the run-off `break` has
not fired, `params` keeps its allocated `nsubedges + 1` entries. -/
theorem interpStep_invariant (e : GeometryEdge) (hv fp : List ℚ) (la : ℚ)
    (n : ℕ) (st : InterpState) (i : ℕ)
    (h : st.broke = true ∨ st.params.length = n + 1) :
    (interpStep e hv fp la n st i).broke = true ∨
      (interpStep e hv fp la n st i).params.length = n + 1 := by
  unfold interpStep
  split
  · exact h
  · rename_i hbr
    dsimp only
    split
    · left; rfl
    · right
      rcases h with h | h
      · exact absurd h hbr
      · show (st.params.set i _).length = n + 1
        rw [List.length_set]
        exact h

/-- If the interpolation loop finishes without run-off, `params` still has
all `nsubedges + 1` entries. -/
theorem interpLoop_length (e : GeometryEdge) (hv fp : List ℚ) (la : ℚ)
    (n : ℕ) (h : (interpLoop e hv fp la n).broke = false) :
    (interpLoop e hv fp la n).params.length = n + 1 := by
  have aux : ∀ (L : List ℕ) (st : InterpState),
      (st.broke = true ∨ st.params.length = n + 1) →
      ((L.foldl (interpStep e hv fp la n) st).broke = true ∨
        (L.foldl (interpStep e hv fp la n) st).params.length = n + 1) := by
    intro L
    induction L with
    | nil => intro st h0; exact h0
    | cons i L ih =>
        intro st h0
        exact ih _ (interpStep_invariant e hv fp la n st i h0)
  have hinv := aux (List.range' 1 (n - 1))
    ⟨0, List.replicate (n + 1) 0, List.replicate (n - 1) default, false⟩
    (Or.inr (by simp))
  unfold interpLoop at h ⊢
  rcases hinv with h1 | h1
  · simp [h1] at h
  · exact h1

/-- Length bookkeeping of `divideTail`: the output is shrunk exactly when
one of the two truncation mechanisms fires — the run-off `break` or the
degenerate-tail `CORRECTED` check — never by the iteration-cap warning by
itself. -/
theorem divideTail_shrink_iff_corrected (e : GeometryEdge) (st : MarchState) :
    ((divideTail e st).runoff = false → (divideTail e st).corrected = false →
      (divideTail e st).params.length = (divideTail e st).nsubedges + 1) ∧
    ((divideTail e st).runoff = false → (divideTail e st).corrected = true →
      (divideTail e st).params.length = (divideTail e st).nsubedges) := by
  unfold divideTail
  dsimp only
  set n := max 1 (Int.toNat ⌊st.hvalueRev.headD 0 + 1 / 2⌋) with hn
  set ist := interpLoop e st.hvalueRev.reverse (st.fineRev.reverse ++ [1])
    (st.hvalueRev.headD 0) n with hist
  have hlen : ist.broke = false → ist.params.length = n + 1 := by
    intro hb
    rw [hist]
    exact interpLoop_length e _ _ _ n (by rw [← hist]; exact hb)
  split
  · refine ⟨fun _ h2 => absurd h2 (by simp), fun h1 _ => ?_⟩
    show ((((ist.params.set 0 0).set n 1).take n).set (n - 1) 1).length = n
    rw [List.length_set, List.length_take, List.length_set, List.length_set,
      hlen h1]
    exact Nat.min_eq_left (by omega)
  · refine ⟨fun h1 _ => ?_, fun _ h2 => absurd h2 (by simp)⟩
    show ((ist.params.set 0 0).set n 1).length = n + 1
    rw [List.length_set, List.length_set, hlen h1]

/-- **C3** (amended).  When the marching loop hits the 20000-iteration cap
without reaching `t = 1`, `Divide` emits a warning but does *not* truncate
its output for that reason: for any edge without a partition override, the
`params` array keeps its full `nsubedges + 1` entries unless the separate
degenerate-tail `CORRECTED` shrink (lines 569–575) or the interpolation
run-off truncation (lines 546–551) fires. -/
theorem divide_cap_does_not_shrink (norm : Point3 → ℚ) (e : GeometryEdge)
    (mp : MeshingParameters) (getH : Point3 → ℕ → ℚ)
    (hpart : e.partition = none) :
    ((e.divide norm mp getH).runoff = false →
      (e.divide norm mp getH).corrected = false →
      (e.divide norm mp getH).params.length =
        (e.divide norm mp getH).nsubedges + 1) ∧
    ((e.divide norm mp getH).runoff = false →
      (e.divide norm mp getH).corrected = true →
      (e.divide norm mp getH).params.length =
        (e.divide norm mp getH).nsubedges) := by
  unfold GeometryEdge.divide
  rw [hpart]
  dsimp only
  exact divideTail_shrink_iff_corrected e _

/-- A one-step edge on the x-axis for the C3 witness run. -/
def edgeC3w : GeometryEdge :=
  { edgeC3 with getPoint := fun t => ⟨t, 0, 0⟩, length := 1 }

/-- **C3** (witness for the amended theorem): a run that finishes in one
marching step keeps its full two-entry `params`. -/
theorem divide_cap_does_not_shrink_witness :
    (edgeC3w.divide axisNorm ⟨1, 0, 0, 1, 1, none, true, [], 1, 6⟩
        (fun _ _ => 4)).params.length =
      (edgeC3w.divide axisNorm ⟨1, 0, 0, 1, 1, none, true, [], 1, 6⟩
        (fun _ _ => 4)).nsubedges + 1 :=
  (divide_cap_does_not_shrink axisNorm edgeC3w _ (fun _ _ => 4) rfl).1
    (by with_unfolding_all rfl) (by with_unfolding_all rfl)
